import Mathlib

set_option maxRecDepth 100000

/-!
# Verification of the miyu decryption/key-recovery engine

Shallow embedding of the four core components described in the
specification, translated from the TypeScript sources:

* `DecryptService` — the page cipher engine
  (`src/electron/services/decryptService.ts`)
* `EmojiAes` — the envelope decryption search
  (`src/electron/services/snsService.ts`, `decryptEmojiAes` and friends)
* `MemScan` — the process-memory key scanner (`src/unnamed/part_004`)
* `Keystream` — the ISAAC64-based keystream generator and its composed
  byte-reversal post-processing step (`src/electron/services/snsService.ts`,
  image branch of `fetchAndDecryptImage`; the `Isaac64` class itself is not
  part of the provided sources and is modelled from the specification)

Files are byte lists (`List Nat`, each element < 256 at runtime).  Library
cryptographic primitives (PBKDF2, HMAC-SHA512, AES) are opaque calls in the
source, so the embedding is parameterised by them; fallible primitives
(AEAD with tag verification, padded block ciphers, zlib) return `Option`.
-/

namespace Miyu

/-- A byte slice `l[a:b]` in the JavaScript `Buffer.slice`/`subarray`
sense (clamped, empty when `b ≤ a`). -/
def bslice (l : List Nat) (a b : Nat) : List Nat :=
  (l.drop a).take (b - a)

/-- First-success iteration: the JS pattern `for (x of xs) { const r = f(x);
if (r) return r }`. -/
def firstSome {α β : Type} (f : α → Option β) : List α → Option β
  | [] => none
  | x :: xs =>
    match f x with
    | some r => some r
    | none => firstSome f xs

theorem firstSome_nil {α β : Type} (f : α → Option β) : firstSome f [] = none := rfl

theorem firstSome_cons {α β : Type} (f : α → Option β) (x : α) (xs : List α) :
    firstSome f (x :: xs) = match f x with
      | some r => some r
      | none => firstSome f xs := rfl

namespace DecryptService

/-- `PAGE_SIZE` from decryptService.ts. -/
def PAGE_SIZE : Nat := 4096

/-- `KEY_SIZE` from decryptService.ts. -/
def KEY_SIZE : Nat := 32

/-- `SALT_SIZE` from decryptService.ts. -/
def SALT_SIZE : Nat := 16

/-- `IV_SIZE` from decryptService.ts. -/
def IV_SIZE : Nat := 16

/-- `HMAC_SIZE` from decryptService.ts (SHA512). -/
def HMAC_SIZE : Nat := 64

/-- `AES_BLOCK_SIZE` from decryptService.ts. -/
def AES_BLOCK_SIZE : Nat := 16

/-- `RESERVE = Math.ceil((IV_SIZE + HMAC_SIZE) / AES_BLOCK_SIZE) * AES_BLOCK_SIZE`. -/
def RESERVE : Nat :=
  ((IV_SIZE + HMAC_SIZE + AES_BLOCK_SIZE - 1) / AES_BLOCK_SIZE) * AES_BLOCK_SIZE

/-- The 16 bytes of `SQLITE_HEADER = 'SQLite format 3\x00'`. -/
def sqliteHeader : List Nat :=
  [0x53, 0x51, 0x4c, 0x69, 0x74, 0x65, 0x20, 0x66,
   0x6f, 0x72, 0x6d, 0x61, 0x74, 0x20, 0x33, 0x00]

/-- The plaintext magic compared by the source: the first 15 bytes of
`SQLITE_HEADER` (`SQLITE_HEADER.slice(0, 15)`). -/
def sqliteMagic : List Nat := sqliteHeader.take 15

/-- Numeric value of a hex digit, `none` for a non-hex character. -/
def hexDigitVal (c : Char) : Option Nat :=
  if '0' ≤ c ∧ c ≤ '9' then some (c.toNat - 48)
  else if 'a' ≤ c ∧ c ≤ 'f' then some (c.toNat - 87)
  else if 'A' ≤ c ∧ c ≤ 'F' then some (c.toNat - 55)
  else none

/-- `Buffer.from(s, 'hex')`: decode hex pairs greedily, stopping at the
first invalid pair or at an odd trailing character. -/
def hexDecodeChars : List Char → List Nat
  | c1 :: c2 :: rest =>
    match hexDigitVal c1, hexDigitVal c2 with
    | some h, some l => (16 * h + l) :: hexDecodeChars rest
    | _, _ => []
  | _ => []

/-- `Buffer.from(hexKey, 'hex')` on a Lean string. -/
def hexDecode (s : String) : List Nat := hexDecodeChars s.data

/-- `fs.readSync(fd, buf, 0, PAGE_SIZE, pos)` into a zero-initialised
`Buffer.alloc(PAGE_SIZE)`: the available bytes, zero-padded to a full page. -/
def readPage (file : List Nat) (pos : Nat) : List Nat :=
  let r := (file.drop pos).take PAGE_SIZE
  r ++ List.replicate (PAGE_SIZE - r.length) 0

/-- The opaque cryptographic library calls made by decryptService.ts.
`pbkdf2 password salt iterations keyLen`, `hmacSHA512 key data`, and
`aesCbcDecrypt key iv data` (aes-256-cbc, `setAutoPadding(false)`; the
input length is always a multiple of the block size, so no failure). -/
structure CryptoPrims where
  pbkdf2 : List Nat → List Nat → Nat → Nat → List Nat
  hmacSHA512 : List Nat → List Nat → List Nat
  aesCbcDecrypt : List Nat → List Nat → List Nat → List Nat

/-- `xorBytes(data, xorValue)` from decryptService.ts. -/
def xorBytes (data : List Nat) (xorValue : Nat) : List Nat :=
  data.map (fun b => b ^^^ xorValue)

/-- `deriveKeys(key, salt)`: `encKey = PBKDF2(key, salt, 256000, 32)`,
`macSalt = salt XOR 0x3a`, `macKey = PBKDF2(encKey, macSalt, 2, 32)`. -/
def deriveKeys (p : CryptoPrims) (key salt : List Nat) : List Nat × List Nat :=
  let encKey := p.pbkdf2 key salt 256000 KEY_SIZE
  let macSalt := xorBytes salt 0x3a
  let macKey := p.pbkdf2 encKey macSalt 2 KEY_SIZE
  (encKey, macKey)

/-- `buf.writeUInt32LE(n)`: the four little-endian bytes of `n`. -/
def le32 (n : Nat) : List Nat :=
  [n % 256, n / 256 % 256, n / 65536 % 256, n / 16777216 % 256]

/-- The HMAC recomputed over the page-0 header by `validateKey`:
`HMAC-SHA512(macKey, page1[SALT_SIZE : dataEnd] || LE32(1))` where
`dataEnd = PAGE_SIZE - RESERVE + IV_SIZE`. -/
def headerMac (p : CryptoPrims) (file : List Nat) (key : List Nat) : List Nat :=
  let page1 := readPage file 0
  let salt := bslice page1 0 SALT_SIZE
  let macKey := (deriveKeys p key salt).2
  let dataEnd := PAGE_SIZE - RESERVE + IV_SIZE
  p.hmacSHA512 macKey (bslice page1 SALT_SIZE dataEnd ++ le32 1)

/-- The stored page-0 HMAC trailer `page1[dataEnd : dataEnd + HMAC_SIZE]`. -/
def storedHeaderMac (file : List Nat) : List Nat :=
  let dataEnd := PAGE_SIZE - RESERVE + IV_SIZE
  bslice (readPage file 0) dataEnd (dataEnd + HMAC_SIZE)

/-- `validateKey(dbPath, hexKey)` from decryptService.ts. -/
def validateKey (p : CryptoPrims) (file : List Nat) (hexKey : String) : Bool :=
  let key := hexDecode hexKey
  if key.length ≠ KEY_SIZE then false
  else
    let page1 := readPage file 0
    if bslice page1 0 15 = sqliteMagic then true
    else headerMac p file key = storedHeaderMac file

/-- `decryptPage(pageBuf, encKey, macKey, pageNum)` from decryptService.ts:
AES-256-CBC decrypt `pageBuf[offset : PAGE_SIZE - RESERVE]` under the page's
stored IV, then append the untouched reserve region.  The per-page HMAC
comparison in the source only emits a log line (`console.warn`) and does not
influence the returned bytes; it is modelled separately as `pageHmacOk`. -/
def decryptPage (p : CryptoPrims) (pageBuf encKey : List Nat) (pageNum : Nat) :
    List Nat :=
  let offset := if pageNum = 0 then SALT_SIZE else 0
  let iv := bslice pageBuf (PAGE_SIZE - RESERVE) (PAGE_SIZE - RESERVE + IV_SIZE)
  let encrypted := bslice pageBuf offset (PAGE_SIZE - RESERVE)
  p.aesCbcDecrypt encKey iv encrypted ++ pageBuf.drop (PAGE_SIZE - RESERVE)

/-- The per-page HMAC comparison performed (and merely logged) inside
`decryptPage`: recomputed HMAC over
`pageBuf[offset : PAGE_SIZE - RESERVE + IV_SIZE] || LE32(pageNum + 1)`
against the stored trailer. -/
def pageHmacOk (p : CryptoPrims) (pageBuf macKey : List Nat) (pageNum : Nat) :
    Bool :=
  let offset := if pageNum = 0 then SALT_SIZE else 0
  let hashMacStart := PAGE_SIZE - RESERVE + IV_SIZE
  let calculatedMAC := p.hmacSHA512 macKey
    (bslice pageBuf offset hashMacStart ++ le32 (pageNum + 1))
  calculatedMAC = bslice pageBuf hashMacStart (hashMacStart + HMAC_SIZE)

/-- Bytes of page `pageNum` actually present in the file
(`bytesRead = min PAGE_SIZE (fileSize - pageNum * PAGE_SIZE)`). -/
def pageBytes (file : List Nat) (pageNum : Nat) : List Nat :=
  bslice file (pageNum * PAGE_SIZE) (pageNum * PAGE_SIZE + PAGE_SIZE)

/-- One iteration of the page loop of `decryptDatabase`: read page `pageNum`
into the reused page buffer (`pageBuf`, which may retain stale bytes of the
previous page past `bytesRead`), emit the output chunk (zero-page
passthrough or `decryptPage`), and return the updated buffer. -/
def pageStep (p : CryptoPrims) (file encKey : List Nat) (pageBuf : List Nat)
    (pageNum : Nat) : List Nat × List Nat :=
  let fresh := pageBytes file pageNum
  let newBuf := fresh ++ pageBuf.drop fresh.length
  if fresh.all (fun b => b == 0) then
    (if pageNum = 0 then fresh.drop SALT_SIZE else fresh, newBuf)
  else
    (decryptPage p newBuf encKey pageNum, newBuf)

/-- The page loop of `decryptDatabase`, from page `start`, for `count`
pages, carrying the reused page buffer; stops early when a read returns
zero bytes (`if (bytesRead === 0) break`). -/
def pagesFrom (p : CryptoPrims) (file encKey : List Nat) :
    List Nat → Nat → Nat → List (List Nat)
  | _, _, 0 => []
  | pageBuf, start, count + 1 =>
    if file.length ≤ start * PAGE_SIZE then []
    else
      let s := pageStep p file encKey pageBuf start
      s.1 :: pagesFrom p file encKey s.2 (start + 1) count

/-- `Math.ceil(fileSize / PAGE_SIZE)`. -/
def totalPages (file : List Nat) : Nat :=
  (file.length + PAGE_SIZE - 1) / PAGE_SIZE

/-- The full list of output chunks written by the page loop of
`decryptDatabase` for a file that passed key validation. -/
def dbChunks (p : CryptoPrims) (file : List Nat) (key : List Nat) :
    List (List Nat) :=
  let page1 := readPage file 0
  let salt := bslice page1 0 SALT_SIZE
  let encKey := (deriveKeys p key salt).1
  pagesFrom p file encKey (List.replicate PAGE_SIZE 0) 0 (totalPages file)

/-- Result of `decryptDatabase`: the `{ success, error? }` value together
with the bytes of the output file, `none` when no output file was created. -/
structure DbResult where
  success : Bool
  error : Option String
  output : Option (List Nat)
deriving DecidableEq

/-- `decryptDatabase(inputPath, outputPath, hexKey)` from decryptService.ts,
with the input file given as its bytes and the output file returned as
bytes (`none` when the function failed before creating it). -/
def decryptDatabase (p : CryptoPrims) (file : List Nat) (hexKey : String) :
    DbResult :=
  let key := hexDecode hexKey
  if key.length ≠ KEY_SIZE then ⟨false, some "密钥长度错误", none⟩
  else
    let page1 := readPage file 0
    if bslice page1 0 15 = sqliteMagic then ⟨true, none, some file⟩
    else if ¬ validateKey p file hexKey then ⟨false, some "密钥验证失败", none⟩
    else ⟨true, none, some (sqliteHeader ++ (dbChunks p file key).flatten)⟩

/-- A trivial instantiation of the cryptographic primitives, used to
evaluate the engine on concrete inputs. -/
def dummyPrims : CryptoPrims :=
  ⟨fun _ _ _ _ => List.replicate KEY_SIZE 0, fun _ _ => List.replicate HMAC_SIZE 0,
   fun _ _ d => d⟩

/-- A 64-character all-zero hex key. -/
def zeroHexKey : String := String.mk (List.replicate 64 '0')

end DecryptService

end Miyu

namespace Miyu.DecryptService

/-- `n` is a processed page index iff its page start lies inside the file. -/
theorem lt_totalPages_iff (file : List Nat) (n : Nat) :
    n < totalPages file ↔ n * PAGE_SIZE < file.length := by
  unfold totalPages PAGE_SIZE
  rw [Nat.lt_iff_add_one_le, Nat.le_div_iff_mul_le (by norm_num)]
  omega

/-- Length of the bytes actually present in page `n`. -/
theorem pageBytes_length (file : List Nat) (n : Nat) :
    (pageBytes file n).length = min PAGE_SIZE (file.length - n * PAGE_SIZE) := by
  unfold pageBytes bslice
  simp

/-- A page read never exceeds the page size. -/
theorem pageBytes_length_le (file : List Nat) (n : Nat) :
    (pageBytes file n).length ≤ PAGE_SIZE := by
  rw [pageBytes_length]
  omega

/-- The reused page buffer keeps its size across a loop iteration. -/
theorem pageStep_snd_length (p : CryptoPrims) (file encKey pageBuf : List Nat)
    (n : Nat) (hb : pageBuf.length = PAGE_SIZE) :
    (pageStep p file encKey pageBuf n).2.length = PAGE_SIZE := by
  have h := pageBytes_length_le file n
  unfold pageStep
  by_cases hz : (pageBytes file n).all (fun b => b == 0) <;>
    simp [hz, hb] <;> omega

/-- On an all-zero page the loop emits the raw page bytes (minus the salt
for page 0), independently of the carried buffer. -/
theorem pageStep_fst_zero (p : CryptoPrims) (file encKey pageBuf : List Nat)
    (n : Nat) (hz : (pageBytes file n).all (fun b => b == 0) = true) :
    (pageStep p file encKey pageBuf n).1 =
      if n = 0 then (pageBytes file n).drop SALT_SIZE else pageBytes file n := by
  unfold pageStep
  simp [hz]

/-- On a full non-zero page the loop emits `decryptPage` of exactly that
page's bytes: the stale tail of the reused buffer is fully overwritten. -/
theorem pageStep_fst_full (p : CryptoPrims) (file encKey pageBuf : List Nat)
    (n : Nat) (hb : pageBuf.length = PAGE_SIZE)
    (hf : (pageBytes file n).length = PAGE_SIZE)
    (hz : (pageBytes file n).all (fun b => b == 0) = false) :
    (pageStep p file encKey pageBuf n).1 =
      decryptPage p (pageBytes file n) encKey n := by
  unfold pageStep
  simp only [hz, Bool.false_eq_true, if_false]
  congr 1
  rw [hf, List.drop_eq_nil_of_le (by omega), List.append_nil]

/-- Every in-range position of the page loop's output holds the chunk
produced by `pageStep` at that page, for some size-`PAGE_SIZE` buffer. -/
theorem pagesFrom_getElem?_ex (p : CryptoPrims) (file encKey : List Nat) :
    ∀ (count start : Nat) (pageBuf : List Nat) (j : Nat),
      pageBuf.length = PAGE_SIZE → j < count →
      (∀ i, i ≤ j → (start + i) * PAGE_SIZE < file.length) →
      ∃ b, b.length = PAGE_SIZE ∧
        (pagesFrom p file encKey pageBuf start count)[j]? =
          some (pageStep p file encKey b (start + j)).1 := by
  intro count
  induction count with
  | zero => intro start pageBuf j _ hj; omega
  | succ c ih =>
    intro start pageBuf j hb hj hin
    have h0 : start * PAGE_SIZE < file.length := by
      have := hin 0 (Nat.zero_le j)
      simpa using this
    unfold pagesFrom
    rw [if_neg (by omega)]
    cases j with
    | zero => exact ⟨pageBuf, hb, by simp⟩
    | succ k =>
      obtain ⟨b, hb', heq⟩ := ih (start + 1)
        (pageStep p file encKey pageBuf start).2 k
        (pageStep_snd_length p file encKey pageBuf start hb)
        (by omega)
        (fun i hi => by
          have := hin (i + 1) (by omega)
          have e : start + 1 + i = start + (i + 1) := by omega
          rw [e]; exact this)
      refine ⟨b, hb', ?_⟩
      have e : start + 1 + k = start + (k + 1) := by omega
      rw [e] at heq
      simpa using heq

/-- The page loop emits one chunk per page when every page start is inside
the file. -/
theorem pagesFrom_length (p : CryptoPrims) (file encKey : List Nat) :
    ∀ (count start : Nat) (pageBuf : List Nat),
      (∀ i, i < count → (start + i) * PAGE_SIZE < file.length) →
      (pagesFrom p file encKey pageBuf start count).length = count := by
  intro count
  induction count with
  | zero => intro start pageBuf _; rfl
  | succ c ih =>
    intro start pageBuf hin
    have h0 : start * PAGE_SIZE < file.length := by
      have := hin 0 (by omega)
      simpa using this
    unfold pagesFrom
    rw [if_neg (by omega)]
    simp only [List.length_cons]
    rw [ih (start + 1) _ (fun i hi => by
      have := hin (i + 1) (by omega)
      have e : start + 1 + i = start + (i + 1) := by omega
      rw [e]; exact this)]

/-- The salt read from the first 16 bytes of page 0. -/
def fileSalt (file : List Nat) : List Nat :=
  bslice (readPage file 0) 0 SALT_SIZE

/-- The encryption key `decryptDatabase` derives for a file. -/
def encKeyOf (p : CryptoPrims) (file key : List Nat) : List Nat :=
  (deriveKeys p key (fileSalt file)).1

/-- The MAC key `decryptDatabase` derives for a file. -/
def macKeyOf (p : CryptoPrims) (file key : List Nat) : List Nat :=
  (deriveKeys p key (fileSalt file)).2

/-- `dbChunks` unfolded to the page loop over the derived encryption key. -/
theorem dbChunks_eq (p : CryptoPrims) (file key : List Nat) :
    dbChunks p file key =
      pagesFrom p file (encKeyOf p file key) (List.replicate PAGE_SIZE 0) 0
        (totalPages file) := rfl

/-- After the key-length, plaintext-magic and key-validation gates pass,
`decryptDatabase` succeeds and writes the SQLite header followed by the
page loop's chunks. -/
theorem decryptDatabase_success (p : CryptoPrims) (file : List Nat)
    (hexKey : String) (hk : (hexDecode hexKey).length = KEY_SIZE)
    (hm : bslice (readPage file 0) 0 15 ≠ sqliteMagic)
    (hv : validateKey p file hexKey = true) :
    decryptDatabase p file hexKey =
      ⟨true, none,
       some (sqliteHeader ++ (dbChunks p file (hexDecode hexKey)).flatten)⟩ := by
  unfold decryptDatabase
  simp [hk, hm, hv]

/-- C10: when the hex key does not decode to exactly 32 bytes,
`decryptDatabase` fails with the key-format error and creates no output,
whatever the input file is — the key-length check precedes the
already-decrypted verbatim-copy short-circuit. -/
theorem C10_keyFormat_precedes_copy (p : CryptoPrims) (file : List Nat)
    (hexKey : String) (h : (hexDecode hexKey).length ≠ KEY_SIZE) :
    decryptDatabase p file hexKey = ⟨false, some "密钥长度错误", none⟩ := by
  unfold decryptDatabase
  simp [h]

/-- C10 witness: a 2-character hex key against a file that is already
decrypted (it begins with the plaintext magic); no copy is produced. -/
theorem C10_keyFormat_precedes_copy_witness :
    (hexDecode "00").length ≠ KEY_SIZE ∧
    bslice (readPage (sqliteHeader ++ [1, 2, 3]) 0) 0 15 = sqliteMagic ∧
    decryptDatabase dummyPrims (sqliteHeader ++ [1, 2, 3]) "00" =
      ⟨false, some "密钥长度错误", none⟩ :=
  ⟨by decide, by decide,
   C10_keyFormat_precedes_copy dummyPrims (sqliteHeader ++ [1, 2, 3]) "00"
     (by decide)⟩

/-- C7: on an input whose first 15 bytes are the plaintext magic,
`decryptDatabase` succeeds and the output is a byte-identical copy of the
input; the result is the same for every choice of cryptographic
primitives, so no AES operation or key derivation influences it. -/
theorem C7_already_decrypted_verbatim_copy (p : CryptoPrims) (file : List Nat)
    (hexKey : String) (hk : (hexDecode hexKey).length = KEY_SIZE)
    (hm : bslice (readPage file 0) 0 15 = sqliteMagic) :
    decryptDatabase p file hexKey = ⟨true, none, some file⟩ := by
  unfold decryptDatabase
  simp [hk, hm]

/-- C7 witness: an already-decrypted file is copied verbatim under the
all-zero 64-hex-character key. -/
theorem C7_already_decrypted_verbatim_copy_witness :
    (hexDecode zeroHexKey).length = KEY_SIZE ∧
    bslice (readPage (sqliteHeader ++ [1, 2, 3]) 0) 0 15 = sqliteMagic ∧
    decryptDatabase dummyPrims (sqliteHeader ++ [1, 2, 3]) zeroHexKey =
      ⟨true, none, some (sqliteHeader ++ [1, 2, 3])⟩ :=
  ⟨by decide, by decide,
   C7_already_decrypted_verbatim_copy dummyPrims (sqliteHeader ++ [1, 2, 3])
     zeroHexKey (by decide) (by decide)⟩

/-- C2: when the recomputed page-0 header HMAC differs from the stored
trailer (for a well-formed key on a not-already-decrypted file),
`decryptDatabase` returns the key-validation failure and no output file is
created or modified. -/
theorem C2_header_mismatch_fails_before_output (p : CryptoPrims)
    (file : List Nat) (hexKey : String)
    (hk : (hexDecode hexKey).length = KEY_SIZE)
    (hm : bslice (readPage file 0) 0 15 ≠ sqliteMagic)
    (hmac : headerMac p file (hexDecode hexKey) ≠ storedHeaderMac file) :
    decryptDatabase p file hexKey = ⟨false, some "密钥验证失败", none⟩ := by
  unfold decryptDatabase
  have hv : validateKey p file hexKey = false := by
    unfold validateKey
    simp [hk, hm, hmac]
  simp [hk, hm, hv]

/-- C2 witness: an all-ones page-0 file whose stored trailer cannot match
the recomputed header HMAC. -/
theorem C2_header_mismatch_fails_before_output_witness :
    (hexDecode zeroHexKey).length = KEY_SIZE ∧
    bslice (readPage (List.replicate 4096 1) 0) 0 15 ≠ sqliteMagic ∧
    headerMac dummyPrims (List.replicate 4096 1) (hexDecode zeroHexKey) ≠
      storedHeaderMac (List.replicate 4096 1) ∧
    decryptDatabase dummyPrims (List.replicate 4096 1) zeroHexKey =
      ⟨false, some "密钥验证失败", none⟩ :=
  ⟨by decide, by decide, by decide,
   C2_header_mismatch_fails_before_output dummyPrims (List.replicate 4096 1)
     zeroHexKey (by decide) (by decide) (by decide)⟩

/-- C5: an all-zero page is copied through to the output unchanged (minus
the 16-byte salt for page 0); the whole result holds for every choice of
the AES primitive, so the page is never decrypted. -/
theorem C5_zero_page_passthrough (p : CryptoPrims) (file : List Nat)
    (hexKey : String) (n : Nat)
    (hk : (hexDecode hexKey).length = KEY_SIZE)
    (hm : bslice (readPage file 0) 0 15 ≠ sqliteMagic)
    (hv : validateKey p file hexKey = true)
    (hn : n < totalPages file)
    (hz : (pageBytes file n).all (fun b => b == 0) = true) :
    decryptDatabase p file hexKey =
      ⟨true, none,
       some (sqliteHeader ++ (dbChunks p file (hexDecode hexKey)).flatten)⟩ ∧
    (dbChunks p file (hexDecode hexKey))[n]? =
      some (if n = 0 then (pageBytes file n).drop SALT_SIZE
            else pageBytes file n) := by
  refine ⟨decryptDatabase_success p file hexKey hk hm hv, ?_⟩
  rw [dbChunks_eq]
  obtain ⟨b, hb, heq⟩ := pagesFrom_getElem?_ex p file
    (encKeyOf p file (hexDecode hexKey)) (totalPages file) 0
    (List.replicate PAGE_SIZE 0) n (by simp) hn
    (fun i hi => by
      rw [Nat.zero_add, ← lt_totalPages_iff]
      omega)
  rw [Nat.zero_add] at heq
  rw [heq, pageStep_fst_zero p file _ b n hz]

/-- Page 0 of the one-page all-zero file is the file itself. -/
theorem zeroFile_pageBytes :
    pageBytes (List.replicate 4096 0) 0 = List.replicate 4096 0 := by
  unfold pageBytes bslice
  rw [Nat.zero_mul, Nat.zero_add, List.drop_zero, Nat.sub_zero,
    show PAGE_SIZE = 4096 from rfl, List.take_replicate, Nat.min_self]

/-- The one-page all-zero file passes the all-zero page test. -/
theorem zeroFile_all_zero :
    (pageBytes (List.replicate 4096 0) 0).all (fun b => b == 0) = true := by
  rw [zeroFile_pageBytes, List.all_eq_true]
  intro x hx
  rw [List.eq_of_mem_replicate hx]
  rfl

/-- The one-page all-zero file has exactly one page. -/
theorem zeroFile_totalPages : totalPages (List.replicate 4096 0) = 1 := by
  unfold totalPages PAGE_SIZE
  rw [List.length_replicate]

/-- C5 witness: a file consisting of a single all-zero page yields that
page unchanged minus the leading salt. -/
theorem C5_zero_page_passthrough_witness :
    (hexDecode zeroHexKey).length = KEY_SIZE ∧
    bslice (readPage (List.replicate 4096 0) 0) 0 15 ≠ sqliteMagic ∧
    validateKey dummyPrims (List.replicate 4096 0) zeroHexKey = true ∧
    0 < totalPages (List.replicate 4096 0) ∧
    (pageBytes (List.replicate 4096 0) 0).all (fun b => b == 0) = true ∧
    (dbChunks dummyPrims (List.replicate 4096 0) (hexDecode zeroHexKey))[0]? =
      some ((pageBytes (List.replicate 4096 0) 0).drop SALT_SIZE) :=
  ⟨by decide, by decide, by decide, by rw [zeroFile_totalPages]; omega,
   zeroFile_all_zero, by
    have h := C5_zero_page_passthrough dummyPrims (List.replicate 4096 0)
      zeroHexKey 0 (by decide) (by decide) (by decide)
      (by rw [zeroFile_totalPages]; omega) zeroFile_all_zero
    have h2 := h.2
    rwa [if_pos rfl] at h2⟩

/-- The bytes of a 2-page concrete file used to exercise a per-page HMAC
mismatch: an all-zero page 0 with a matching header trailer, then a
non-zero page 1 whose stored trailer cannot match. -/
def c6File : List Nat := List.replicate 4096 0 ++ 5 :: List.replicate 4095 0

/-- Primitives whose HMAC distinguishes the header computation (whose
input starts with byte `c6File[16] = 0`) from the page-1 computation
(whose input starts with byte `c6File[4096] = 5`), so that the header
validates while page 1's HMAC mismatches. -/
def headPrims : CryptoPrims :=
  ⟨fun _ _ _ _ => List.replicate KEY_SIZE 0,
   fun _ data => if data.headD 0 = 5 then List.replicate HMAC_SIZE 1
                 else List.replicate HMAC_SIZE 0,
   fun _ _ d => d⟩

/-- Size of the concrete 2-page file. -/
theorem c6File_length : c6File.length = 8192 := by
  unfold c6File
  rw [List.length_append, List.length_replicate, List.length_cons,
    List.length_replicate]

/-- C6: after header validation has succeeded, a mismatch of an individual
(full, non-zero) page's HMAC does not abort `decryptDatabase`: the page is
still CBC-decrypted with its stored IV and written at its position, the
loop emits every page, and the operation returns success. -/
theorem C6_page_hmac_mismatch_nonfatal (p : CryptoPrims) (file : List Nat)
    (hexKey : String) (n : Nat)
    (hk : (hexDecode hexKey).length = KEY_SIZE)
    (hm : bslice (readPage file 0) 0 15 ≠ sqliteMagic)
    (hv : validateKey p file hexKey = true)
    (hfull : n * PAGE_SIZE + PAGE_SIZE ≤ file.length)
    (hnz : (pageBytes file n).all (fun b => b == 0) = false)
    (hbad : pageHmacOk p (pageBytes file n)
      (macKeyOf p file (hexDecode hexKey)) n = false) :
    decryptDatabase p file hexKey =
      ⟨true, none,
       some (sqliteHeader ++ (dbChunks p file (hexDecode hexKey)).flatten)⟩ ∧
    (dbChunks p file (hexDecode hexKey))[n]? =
      some (decryptPage p (pageBytes file n)
        (encKeyOf p file (hexDecode hexKey)) n) ∧
    (dbChunks p file (hexDecode hexKey)).length = totalPages file := by
  have hp : PAGE_SIZE = 4096 := rfl
  have hn : n < totalPages file := by
    rw [lt_totalPages_iff]
    omega
  have hlen : (pageBytes file n).length = PAGE_SIZE := by
    rw [pageBytes_length]
    omega
  refine ⟨decryptDatabase_success p file hexKey hk hm hv, ?_, ?_⟩
  · rw [dbChunks_eq]
    obtain ⟨b, hb, heq⟩ := pagesFrom_getElem?_ex p file
      (encKeyOf p file (hexDecode hexKey)) (totalPages file) 0
      (List.replicate PAGE_SIZE 0) n (by simp) hn
      (fun i hi => by
        rw [Nat.zero_add, ← lt_totalPages_iff]
        omega)
    rw [Nat.zero_add] at heq
    rw [heq, pageStep_fst_full p file _ b n hb hlen hnz]
  · rw [dbChunks_eq]
    exact pagesFrom_length p file _ (totalPages file) 0 _
      (fun i hi => by
        rw [Nat.zero_add, ← lt_totalPages_iff]
        omega)

/-- C6 witness: on the concrete 2-page file, page 1's HMAC mismatches, yet
the run succeeds, page 1 is written decrypted, and both pages are
emitted. -/
theorem C6_page_hmac_mismatch_nonfatal_witness :
    validateKey headPrims c6File zeroHexKey = true ∧
    pageHmacOk headPrims (pageBytes c6File 1)
      (macKeyOf headPrims c6File (hexDecode zeroHexKey)) 1 = false ∧
    decryptDatabase headPrims c6File zeroHexKey =
      ⟨true, none,
       some (sqliteHeader ++
         (dbChunks headPrims c6File (hexDecode zeroHexKey)).flatten)⟩ ∧
    (dbChunks headPrims c6File (hexDecode zeroHexKey))[1]? =
      some (decryptPage headPrims (pageBytes c6File 1)
        (encKeyOf headPrims c6File (hexDecode zeroHexKey)) 1) ∧
    (dbChunks headPrims c6File (hexDecode zeroHexKey)).length =
      totalPages c6File :=
  ⟨by decide, by decide,
   C6_page_hmac_mismatch_nonfatal headPrims c6File zeroHexKey 1 (by decide)
     (by decide) (by decide) (by rw [c6File_length]; decide) (by decide)
     (by decide)⟩

end Miyu.DecryptService

namespace Miyu.EmojiAes

open Miyu (bslice firstSome)

/-- `isValidImageBuffer(buf)` from snsService.ts: recognized image magic
(GIF, PNG signature, JPEG SOI, RIFF····WEBP) on a buffer of at least 12
bytes. -/
def isValidImageBuffer (buf : List Nat) : Bool :=
  if buf.length < 12 then false
  else if buf.getD 0 0 = 0x47 ∧ buf.getD 1 0 = 0x49 ∧ buf.getD 2 0 = 0x46 then
    true
  else if buf.getD 0 0 = 0x89 ∧ buf.getD 1 0 = 0x50 ∧ buf.getD 2 0 = 0x4E ∧
      buf.getD 3 0 = 0x47 then true
  else if buf.getD 0 0 = 0xFF ∧ buf.getD 1 0 = 0xD8 ∧ buf.getD 2 0 = 0xFF then
    true
  else if buf.getD 0 0 = 0x52 ∧ buf.getD 1 0 = 0x49 ∧ buf.getD 2 0 = 0x46 ∧
      buf.getD 3 0 = 0x46 ∧ buf.getD 8 0 = 0x57 ∧ buf.getD 9 0 = 0x45 ∧
      buf.getD 10 0 = 0x42 ∧ buf.getD 11 0 = 0x50 then true
  else false

/-- The library calls made by the envelope search.  `gcm key nonce ct tag`
models `crypto.createDecipheriv('aes-…-gcm') … setAuthTag … final`:
`some plaintext` exactly when the authentication tag verifies, `none` when
decryption throws.  `inflate`, `gunzip`, `unzip` model the `zlib` calls;
`cbc key iv data` and `ecb key data` model the padded CBC/ECB deciphers
(`none` when `final()` throws on bad padding). -/
structure EmojiPrims where
  gcm : List Nat → List Nat → List Nat → List Nat → Option (List Nat)
  inflate : List Nat → Option (List Nat)
  gunzip : List Nat → Option (List Nat)
  unzip : List Nat → Option (List Nat)
  cbc : List Nat → List Nat → List Nat → Option (List Nat)
  ecb : List Nat → List Nat → Option (List Nat)

/-- The `for (const fn of […]) { try { const d = fn(x); if (valid d)
return d } catch { } }` pattern: first decompression whose result passes
the image-magic check. -/
def tryFnsValid (fns : List (List Nat → Option (List Nat))) (x : List Nat) :
    Option (List Nat) :=
  firstSome (fun fn =>
    match fn x with
    | some d => if isValidImageBuffer d then some d else none
    | none => none) fns

/-- `tryGcmDecrypt(key, nonce, ciphertext, tag)` from snsService.ts: fail
only when the tag does not verify; on success return the plaintext, its
valid decompression if the plaintext itself is not a recognized image, or
the raw plaintext again when nothing is recognized. -/
def tryGcmDecrypt (e : EmojiPrims) (key nonce ciphertext tag : List Nat) :
    Option (List Nat) :=
  match e.gcm key nonce ciphertext tag with
  | none => none
  | some decrypted =>
    if isValidImageBuffer decrypted then some decrypted
    else
      match tryFnsValid [e.inflate, e.gunzip, e.unzip] decrypted with
      | some d => some d
      | none => some decrypted

/-- One `(nonce, ciphertext, tag)` split of `buildGcmLayouts`. -/
structure GcmLayout where
  nonce : List Nat
  ciphertext : List Nat
  tag : List Nat
deriving DecidableEq

/-- `encData.readUInt32LE(off)`. -/
def readUInt32LE (d : List Nat) (off : Nat) : Nat :=
  d.getD off 0 + 256 * d.getD (off + 1) 0 + 65536 * d.getD (off + 2) 0 +
    16777216 * d.getD (off + 3) 0

/-- `buildGcmLayouts(encData)` from snsService.ts: GcmData block, trailing
nonce, leading nonce, zero nonce, and nonce+tag head splits, in source
order. -/
def buildGcmLayouts (encData : List Nat) : List GcmLayout :=
  let n := encData.length
  (if 63 < n ∧ encData.getD 0 0 = 0xAB ∧ encData.getD 8 0 = 0xAB ∧
      encData.getD 9 0 = 0x00 then
    let payloadSize := readUInt32LE encData 10
    if 16 < payloadSize ∧ 63 + payloadSize ≤ n then
      [⟨bslice encData 19 31,
        bslice encData 63 (63 + payloadSize - 16),
        bslice encData (63 + payloadSize - 16) (63 + payloadSize)⟩]
    else []
  else []) ++
  (if 28 < n then
    [⟨bslice encData (n - 28) (n - 16), bslice encData 0 (n - 28),
      bslice encData (n - 16) n⟩]
  else []) ++
  (if 28 < n then
    [⟨bslice encData 0 12, bslice encData 12 (n - 16),
      bslice encData (n - 16) n⟩]
  else []) ++
  (if 16 < n then
    [⟨List.replicate 12 0, bslice encData 0 (n - 16),
      bslice encData (n - 16) n⟩]
  else []) ++
  (if 28 < n then
    [⟨bslice encData 0 12, bslice encData 28 n, bslice encData 12 28⟩]
  else [])

/-- `if (key.length !== 16 && key.length !== 32) continue` — the AEAD
sections only try keys of AES-128/AES-256 size. -/
def keyQualifies (k : List Nat) : Bool :=
  k.length = 16 ∨ k.length = 32

/-- One AEAD trial: a derived key together with a nonce/ciphertext/tag
split of the envelope. -/
structure GcmAttempt where
  key : List Nat
  nonce : List Nat
  ciphertext : List Nat
  tag : List Nat
deriving DecidableEq

/-- The ordered sequence of AEAD trials of `decryptEmojiAes`, exactly in
source order: first the trailing-nonce split `[ct][nonce 12B][tag 16B]`
(only when `encData.length > 28`), then `nonce = key's first 12 bytes`
with split `[ct][tag 16B]`, then every layout of `buildGcmLayouts`; each
section iterates the qualifying derived keys in order.  `keyTries` is the
derived-key list built by `buildKeyTries`. -/
def gcmAttempts (encData : List Nat) (keyTries : List (List Nat)) :
    List GcmAttempt :=
  let n := encData.length
  let ks := keyTries.filter keyQualifies
  (if 28 < n then
    ks.map (fun k => ⟨k, bslice encData (n - 28) (n - 16),
      bslice encData 0 (n - 28), bslice encData (n - 16) n⟩)
  else []) ++
  ks.map (fun k => ⟨k, k.take 12, bslice encData 0 (n - 16),
    bslice encData (n - 16) n⟩) ++
  (buildGcmLayouts encData).flatMap (fun l =>
    ks.map (fun k => ⟨k, l.nonce, l.ciphertext, l.tag⟩))

/-- The `if valid … return / try zlib / return` acceptance applied to a
CBC fallback result. -/
def cbcCheck (e : EmojiPrims) (result : List Nat) : Option (List Nat) :=
  if isValidImageBuffer result then some result
  else tryFnsValid [e.inflate, e.gunzip] result

/-- CBC variant 1 (`IV = key` itself), attempted only on block-aligned
envelopes; accepted through the image-magic check. -/
def cbc1Try (e : EmojiPrims) (encData k : List Nat) : Option (List Nat) :=
  if 16 ≤ encData.length ∧ encData.length % 16 = 0 then
    match e.cbc k k encData with
    | some result => cbcCheck e result
    | none => none
  else none

/-- CBC variant 2 (`IV` = the envelope's first 16 bytes, ciphertext = the
remainder), attempted only on envelopes longer than 32 bytes; accepted
through the image-magic check. -/
def cbc2Try (e : EmojiPrims) (encData k : List Nat) : Option (List Nat) :=
  if 32 < encData.length then
    match e.cbc k (encData.take 16) (encData.drop 16) with
    | some result => cbcCheck e result
    | none => none
  else none

/-- The ECB trial, accepted only when the plaintext itself is a recognized
image (no decompression attempt in the source for ECB). -/
def ecbTry (e : EmojiPrims) (encData k : List Nat) : Option (List Nat) :=
  match e.ecb k encData with
  | some result => if isValidImageBuffer result then some result else none
  | none => none

/-- The non-AEAD fallback trials of `decryptEmojiAes` for one derived key
(16-byte keys only): AES-128-CBC with IV = key, AES-128-CBC with IV =
first 16 envelope bytes, then AES-128-ECB, in source order with early
return. -/
def fallbackForKey (e : EmojiPrims) (encData : List Nat) (k : List Nat) :
    Option (List Nat) :=
  if k.length ≠ 16 then none
  else
    match cbc1Try e encData k with
    | some r => some r
    | none =>
      match cbc2Try e encData k with
      | some r => some r
      | none => ecbTry e encData k

/-- `decryptEmojiAes(encData, aesKey)` from snsService.ts, with the
derived-key list `keyTries` (as produced by `buildKeyTries`) passed in:
reject envelopes of at most 16 bytes, try every AEAD combination in
order, then the non-AEAD fallbacks, returning the first success. -/
def decryptEmojiAes (e : EmojiPrims) (encData : List Nat)
    (keyTries : List (List Nat)) : Option (List Nat) :=
  if encData.length ≤ 16 then none
  else
    match firstSome
      (fun a => tryGcmDecrypt e a.key a.nonce a.ciphertext a.tag)
      (gcmAttempts encData keyTries) with
    | some r => some r
    | none => firstSome (fallbackForKey e encData) keyTries

/-- `firstSome` yields nothing when every element fails. -/
theorem firstSome_eq_none_of {α β : Type} (f : α → Option β) (l : List α)
    (h : ∀ x ∈ l, f x = none) : Miyu.firstSome f l = none := by
  induction l with
  | nil => rfl
  | cons x xs ih =>
    rw [Miyu.firstSome_cons, h x (List.mem_cons_self x xs)]
    exact ih (fun y hy => h y (List.mem_cons_of_mem x hy))

/-- A `firstSome` success comes from some element of the list. -/
theorem firstSome_eq_some_imp {α β : Type} (f : α → Option β) (l : List α)
    (r : β) (h : Miyu.firstSome f l = some r) : ∃ x ∈ l, f x = some r := by
  induction l with
  | nil => cases h
  | cons x xs ih =>
    rw [Miyu.firstSome_cons] at h
    cases hx : f x with
    | some v =>
      simp only [hx] at h
      exact ⟨x, List.mem_cons_self x xs, by rw [hx, h]⟩
    | none =>
      simp only [hx] at h
      obtain ⟨y, hy, hfy⟩ := ih h
      exact ⟨y, List.mem_cons_of_mem x hy, hfy⟩

/-- Anything returned by the decompression loop passed the image check. -/
theorem tryFnsValid_valid (fns : List (List Nat → Option (List Nat)))
    (x r : List Nat) (h : tryFnsValid fns x = some r) :
    isValidImageBuffer r = true := by
  obtain ⟨fn, _, hfn⟩ := firstSome_eq_some_imp _ _ _ h
  cases hx : fn x with
  | none => simp only [hx] at hfn; exact Option.noConfusion hfn
  | some d =>
    simp only [hx] at hfn
    by_cases hv : isValidImageBuffer d
    · rw [if_pos hv] at hfn
      injection hfn with h2
      rw [← h2]
      exact hv
    · rw [if_neg hv] at hfn
      cases hfn

/-- Anything returned by the CBC acceptance check passed the image check,
directly or after decompression. -/
theorem cbcCheck_valid (e : EmojiPrims) (result r : List Nat)
    (h : cbcCheck e result = some r) : isValidImageBuffer r = true := by
  unfold cbcCheck at h
  by_cases hv : isValidImageBuffer result
  · rw [if_pos hv] at h
    injection h with h2
    rw [← h2]
    exact hv
  · rw [if_neg hv] at h
    exact tryFnsValid_valid _ _ _ h

/-- Anything returned by a non-AEAD fallback trial passed the image
check. -/
theorem fallbackForKey_valid (e : EmojiPrims) (encData k r : List Nat)
    (h : fallbackForKey e encData k = some r) : isValidImageBuffer r = true := by
  have hcbc1 : ∀ v, cbc1Try e encData k = some v → isValidImageBuffer v = true := by
    intro v h1
    unfold cbc1Try at h1
    split at h1
    · cases hc : e.cbc k k encData with
      | some result =>
        simp only [hc] at h1
        exact cbcCheck_valid e result v h1
      | none => simp only [hc] at h1; exact Option.noConfusion h1
    · exact Option.noConfusion h1
  have hcbc2 : ∀ v, cbc2Try e encData k = some v → isValidImageBuffer v = true := by
    intro v h1
    unfold cbc2Try at h1
    split at h1
    · cases hc : e.cbc k (encData.take 16) (encData.drop 16) with
      | some result =>
        simp only [hc] at h1
        exact cbcCheck_valid e result v h1
      | none => simp only [hc] at h1; exact Option.noConfusion h1
    · exact Option.noConfusion h1
  have hecb : ∀ v, ecbTry e encData k = some v → isValidImageBuffer v = true := by
    intro v h1
    unfold ecbTry at h1
    cases hc : e.ecb k encData with
    | some result =>
      simp only [hc] at h1
      by_cases hv : isValidImageBuffer result
      · rw [if_pos hv] at h1
        injection h1 with h3
        rw [← h3]
        exact hv
      · rw [if_neg hv] at h1
        exact Option.noConfusion h1
    | none => simp only [hc] at h1; exact Option.noConfusion h1
  unfold fallbackForKey at h
  split at h
  · exact Option.noConfusion h
  · cases h1 : cbc1Try e encData k with
    | some v =>
      simp only [h1] at h
      injection h with h3
      exact h3 ▸ hcbc1 v h1
    | none =>
      simp only [h1] at h
      cases h2 : cbc2Try e encData k with
      | some v =>
        simp only [h2] at h
        injection h with h3
        exact h3 ▸ hcbc2 v h2
      | none =>
        simp only [h2] at h
        exact hecb r h

/-- An AEAD result `r` never passes the image-magic check as-is, after
`inflateSync`, or after `gunzipSync`, under the primitives `e`. -/
def noValidForm (e : EmojiPrims) (r : List Nat) : Prop :=
  isValidImageBuffer r = false ∧
  (∀ d, e.inflate r = some d → isValidImageBuffer d = false) ∧
  (∀ d, e.gunzip r = some d → isValidImageBuffer d = false)

/-- The two-function decompression loop of the CBC fallbacks yields
nothing when neither decompression yields a recognized image. -/
theorem tryFnsValid_pair_none (e : EmojiPrims) (res : List Nat)
    (h1 : ∀ d, e.inflate res = some d → isValidImageBuffer d = false)
    (h2 : ∀ d, e.gunzip res = some d → isValidImageBuffer d = false) :
    tryFnsValid [e.inflate, e.gunzip] res = none := by
  unfold tryFnsValid
  apply firstSome_eq_none_of
  intro fn hfn
  have hmem : fn = e.inflate ∨ fn = e.gunzip := by simpa using hfn
  rcases hmem with rfl | rfl
  · cases hx : e.inflate res with
    | none => simp only [hx]
    | some d =>
      simp only [hx]
      rw [if_neg (by simp [h1 d hx])]
  · cases hx : e.gunzip res with
    | none => simp only [hx]
    | some d =>
      simp only [hx]
      rw [if_neg (by simp [h2 d hx])]

/-- C8: the envelope search only ever returns verified plaintext.  (1) An
AEAD attempt is accepted exactly when the authentication tag verifies
(`gcm` succeeds), even when no image magic is recognized; (2) when every
AEAD attempt fails, any returned plaintext passed the image-magic check;
(3) when additionally no CBC/ECB fallback result passes the image-magic
check as-is or after decompression, the search reports failure. -/
theorem C8_success_is_verified (e : EmojiPrims) :
    (∀ key nonce ciphertext tag,
      tryGcmDecrypt e key nonce ciphertext tag = none ↔
        e.gcm key nonce ciphertext tag = none) ∧
    (∀ encData keyTries r, (∀ k n c t, e.gcm k n c t = none) →
      decryptEmojiAes e encData keyTries = some r →
      isValidImageBuffer r = true) ∧
    (∀ encData keyTries, (∀ k n c t, e.gcm k n c t = none) →
      (∀ k iv d res, e.cbc k iv d = some res → noValidForm e res) →
      (∀ k d res, e.ecb k d = some res → isValidImageBuffer res = false) →
      decryptEmojiAes e encData keyTries = none) := by
  have hiff : ∀ key nonce ciphertext tag,
      tryGcmDecrypt e key nonce ciphertext tag = none ↔
        e.gcm key nonce ciphertext tag = none := by
    intro key nonce ct tag
    unfold tryGcmDecrypt
    cases hg : e.gcm key nonce ct tag with
    | none => simp
    | some d =>
      simp only
      constructor
      · intro hn
        by_cases hv : isValidImageBuffer d
        · rw [if_pos hv] at hn
          exact Option.noConfusion hn
        · rw [if_neg hv] at hn
          cases ht : tryFnsValid [e.inflate, e.gunzip, e.unzip] d with
          | some x => simp only [ht] at hn; exact Option.noConfusion hn
          | none => simp only [ht] at hn; exact Option.noConfusion hn
      · intro hn
        exact Option.noConfusion hn
  refine ⟨hiff, ?_, ?_⟩
  · intro encData keyTries r hg h
    unfold decryptEmojiAes at h
    split at h
    · exact Option.noConfusion h
    · have hnone : Miyu.firstSome
          (fun a => tryGcmDecrypt e a.key a.nonce a.ciphertext a.tag)
          (gcmAttempts encData keyTries) = none :=
        firstSome_eq_none_of _ _
          (fun a _ => (hiff a.key a.nonce a.ciphertext a.tag).mpr (hg _ _ _ _))
      simp only [hnone] at h
      obtain ⟨k, _, hk⟩ := firstSome_eq_some_imp _ _ _ h
      exact fallbackForKey_valid e encData k r hk
  · intro encData keyTries hg hcbc hecb
    unfold decryptEmojiAes
    split
    · rfl
    · have hnone : Miyu.firstSome
          (fun a => tryGcmDecrypt e a.key a.nonce a.ciphertext a.tag)
          (gcmAttempts encData keyTries) = none :=
        firstSome_eq_none_of _ _
          (fun a _ => (hiff a.key a.nonce a.ciphertext a.tag).mpr (hg _ _ _ _))
      simp only [hnone]
      apply firstSome_eq_none_of
      intro k _
      have hchk : ∀ res, e.cbc k k encData = some res ∨
          e.cbc k (encData.take 16) (encData.drop 16) = some res →
          cbcCheck e res = none := by
        intro res hres
        have hnv : noValidForm e res := by
          rcases hres with hres | hres
          · exact hcbc k k encData res hres
          · exact hcbc k (encData.take 16) (encData.drop 16) res hres
        unfold cbcCheck
        rw [if_neg (by simp [hnv.1])]
        exact tryFnsValid_pair_none e res hnv.2.1 hnv.2.2
      unfold fallbackForKey
      split
      · rfl
      · have h1 : cbc1Try e encData k = none := by
          unfold cbc1Try
          split
          · cases hc : e.cbc k k encData with
            | some res => simp only [hc]; exact hchk res (Or.inl hc)
            | none => simp only [hc]
          · rfl
        have h2 : cbc2Try e encData k = none := by
          unfold cbc2Try
          split
          · cases hc : e.cbc k (encData.take 16) (encData.drop 16) with
            | some res => simp only [hc]; exact hchk res (Or.inr hc)
            | none => simp only [hc]
          · rfl
        have h3 : ecbTry e encData k = none := by
          unfold ecbTry
          cases hc : e.ecb k encData with
          | some res =>
            simp only [hc]
            rw [if_neg (by simp [hecb k encData res hc])]
          | none => simp only [hc]
        simp only [h1, h2, h3]

/-- A 12-byte GIF87a header used as a concrete recognized image. -/
def gifBytes : List Nat := [0x47, 0x49, 0x46, 0x38, 0x37, 0x61, 0, 0, 0, 0, 0, 0]

/-- Primitives where every library call fails. -/
def nonePrims : EmojiPrims :=
  ⟨fun _ _ _ _ => none, fun _ => none, fun _ => none, fun _ => none,
   fun _ _ _ => none, fun _ _ => none⟩

/-- Primitives where AEAD always fails and ECB always "decrypts" to a
GIF header. -/
def ecbGifPrims : EmojiPrims :=
  ⟨fun _ _ _ _ => none, fun _ => none, fun _ => none, fun _ => none,
   fun _ _ _ => none, fun _ _ => some gifBytes⟩

/-- A 17-byte envelope. -/
def data17 : List Nat := List.replicate 17 1

/-- C8 witness: each part applied at concrete primitives and envelope. -/
theorem C8_success_is_verified_witness :
    (tryGcmDecrypt nonePrims [1] [2] [3] [4] = none ↔
      nonePrims.gcm [1] [2] [3] [4] = none) ∧
    isValidImageBuffer gifBytes = true ∧
    decryptEmojiAes nonePrims data17 [List.replicate 16 9] = none :=
  ⟨(C8_success_is_verified nonePrims).1 [1] [2] [3] [4],
   (C8_success_is_verified ecbGifPrims).2.1 data17 [List.replicate 16 9]
     gifBytes (fun _ _ _ _ => rfl) (by decide),
   (C8_success_is_verified nonePrims).2.2 data17 [List.replicate 16 9]
     (fun _ _ _ _ => rfl)
     (fun _ _ _ _ h => Option.noConfusion h)
     (fun _ _ _ h => Option.noConfusion h)⟩

/-- A 29-byte envelope with pairwise-distinct bytes. -/
def cexData : List Nat := List.range 29

/-- A 16-byte derived key of constant bytes. -/
def cexKey : List Nat := List.replicate 16 7

/-- Primitives whose AEAD call succeeds and returns the nonce it was
given, revealing which attempt ran first. -/
def revealPrims : EmojiPrims :=
  ⟨fun _ nonce _ _ => some nonce, fun _ => none, fun _ => none,
   fun _ => none, fun _ _ _ => none, fun _ _ => none⟩

/-- C3 counterexample: on a 29-byte envelope the first AEAD combination
attempted is the trailing-nonce split (nonce = bytes `[1:13]` of the
envelope), not `nonce = key's first 12 bytes` with split `[ct][tag]`; the
search accordingly returns the trailing-nonce plaintext. -/
theorem C3_counterexample_first_attempt :
    (gcmAttempts cexData [cexKey]).head? =
      some ⟨cexKey, bslice cexData 1 13, bslice cexData 0 1,
        bslice cexData 13 29⟩ ∧
    bslice cexData 1 13 ≠ cexKey.take 12 ∧
    decryptEmojiAes revealPrims cexData [cexKey] =
      some (bslice cexData 1 13) :=
  ⟨by decide, by decide, by decide⟩

/-- C3 (amended): the `nonce = key's first 12 bytes`, `[ct][tag]`
combination is attempted first only for envelopes of at most 28 bytes;
for longer envelopes the trailing-nonce split `[ct][nonce 12B][tag 16B]`
is attempted first (with the first qualifying derived key). -/
theorem C3_first_attempt_layout (encData : List Nat)
    (keyTries : List (List Nat)) (k : List Nat)
    (hk : (keyTries.filter keyQualifies).head? = some k) :
    (28 < encData.length →
      (gcmAttempts encData keyTries).head? =
        some ⟨k, bslice encData (encData.length - 28) (encData.length - 16),
          bslice encData 0 (encData.length - 28),
          bslice encData (encData.length - 16) encData.length⟩) ∧
    (encData.length ≤ 28 →
      (gcmAttempts encData keyTries).head? =
        some ⟨k, k.take 12, bslice encData 0 (encData.length - 16),
          bslice encData (encData.length - 16) encData.length⟩) := by
  obtain ⟨t, ht⟩ : ∃ t, keyTries.filter keyQualifies = k :: t := by
    cases h : keyTries.filter keyQualifies with
    | nil => rw [h] at hk; exact Option.noConfusion hk
    | cons a t =>
      rw [h, List.head?_cons] at hk
      injection hk with h2
      subst h2
      exact ⟨t, rfl⟩
  constructor
  · intro h28
    unfold gcmAttempts
    rw [ht]
    simp [h28]
  · intro h28
    unfold gcmAttempts
    rw [ht]
    simp [Nat.not_lt.mpr h28]

/-- A 20-byte envelope. -/
def data20 : List Nat := List.range 20

/-- C3 amended-claim witness: both branches applied at concrete
envelopes. -/
theorem C3_first_attempt_layout_witness :
    (([cexKey] : List (List Nat)).filter keyQualifies).head? = some cexKey ∧
    (gcmAttempts cexData [cexKey]).head? =
      some ⟨cexKey, bslice cexData (cexData.length - 28) (cexData.length - 16),
        bslice cexData 0 (cexData.length - 28),
        bslice cexData (cexData.length - 16) cexData.length⟩ ∧
    (gcmAttempts data20 [cexKey]).head? =
      some ⟨cexKey, cexKey.take 12, bslice data20 0 (data20.length - 16),
        bslice data20 (data20.length - 16) data20.length⟩ :=
  ⟨by decide,
   (C3_first_attempt_layout cexData [cexKey] cexKey (by decide)).1 (by decide),
   (C3_first_attempt_layout data20 [cexKey] cexKey (by decide)).2 (by decide)⟩

end Miyu.EmojiAes

namespace Miyu.MemScan

open Miyu (bslice firstSome)

/-- `isAlphaNumAscii(byte)` from the memory-key scanner: `a-z`, `A-Z`,
`0-9`. -/
def isAlphaNumAscii (b : Nat) : Bool :=
  (0x61 ≤ b ∧ b ≤ 0x7a) ∨ (0x41 ≤ b ∧ b ≤ 0x5a) ∨ (0x30 ≤ b ∧ b ≤ 0x39)

/-- `isUtf16AsciiKey(buf, start)`: 32 alphanumeric ASCII characters in
UTF-16LE (each followed by a zero byte), 64 bytes total. -/
def isUtf16AsciiKey (buf : List Nat) (start : Nat) : Bool :=
  if buf.length < start + 64 then false
  else (List.range 32).all (fun j =>
    buf.getD (start + 2 * j + 1) 0 == 0 &&
      isAlphaNumAscii (buf.getD (start + 2 * j) 0))

/-- `verifyKey(ciphertext, keyBytes)`: AES-128-ECB decrypt (no padding)
the ciphertext sample under the candidate's first 16 bytes and test for
the JPEG start-of-image marker `FF D8 FF`.  `aes key data` is the opaque
library decipher (`none` when the call throws). -/
def verifyKey (aes : List Nat → List Nat → Option (List Nat))
    (ciphertext keyBytes : List Nat) : Bool :=
  match aes (keyBytes.take 16) ciphertext with
  | some decrypted =>
    decrypted.getD 0 255 == 0xFF && decrypted.getD 1 255 == 0xD8 &&
      decrypted.getD 2 255 == 0xFF
  | none => false

/-- The candidate shape tested at position `i` of the ASCII search: a
non-alphanumeric byte, 32 alphanumeric bytes, then a non-alphanumeric
byte. -/
def asciiCandidateAt (data : List Nat) (i : Nat) : Bool :=
  !isAlphaNumAscii (data.getD i 0) &&
  (List.range 32).all (fun j => isAlphaNumAscii (data.getD (i + 1 + j) 0)) &&
  !isAlphaNumAscii (data.getD (i + 33) 0)

/-- The ASCII key-candidate loop
(`for (let i = 0; i < dataToScan.length - 34; i++) …`): return the first
candidate of the right shape whose first 16 bytes verify. -/
def asciiScanFrom (verify : List Nat → Bool) (data : List Nat) (i : Nat) :
    Option (List Nat) :=
  if h : i < data.length - 34 then
    if asciiCandidateAt data i && verify (bslice data (i + 1) (i + 33)) then
      some (bslice data (i + 1) (i + 33))
    else asciiScanFrom verify data (i + 1)
  else none
termination_by data.length - 34 - i
decreasing_by omega

/-- The 32 character bytes of a UTF-16LE candidate at position `i`. -/
def utf16KeyBytes (data : List Nat) (i : Nat) : List Nat :=
  (List.range 32).map (fun j => data.getD (i + 2 * j) 0)

/-- The UTF-16 key-candidate loop
(`for (let i = 0; i < dataToScan.length - 65; i++) …`). -/
def utf16ScanFrom (verify : List Nat → Bool) (data : List Nat) (i : Nat) :
    Option (List Nat) :=
  if h : i < data.length - 65 then
    if isUtf16AsciiKey data i && verify (utf16KeyBytes data i) then
      some (utf16KeyBytes data i)
    else utf16ScanFrom verify data (i + 1)
  else none
termination_by data.length - 65 - i
decreasing_by omega

/-- One chunk of the scan: the full ASCII search first, then the UTF-16
search. -/
def scanChunk (verify : List Nat → Bool) (data : List Nat) :
    Option (List Nat) :=
  match asciiScanFrom verify data 0 with
  | some k => some k
  | none => utf16ScanFrom verify data 0

/-- The raw OS facilities used by `getAesKeyFromMemory`: whether
`kernel32` loaded, `OpenProcess`, the enumerated committed/readable
memory regions `(baseAddress, regionSize)`, and `ReadProcessMemory`
(`none` on failure or zero bytes read; may return fewer bytes). -/
structure OsPrims where
  kernel32Ok : Bool
  openProcess : Nat → Option Nat
  regions : List (Nat × Nat)
  readMem : Nat → Nat → Option (List Nat)

/-- `const chunkSize = 4 * 1024 * 1024`. -/
def chunkSize : Nat := 4 * 1024 * 1024

/-- `const overlap = 65`. -/
def overlap : Nat := 65

/-- One iteration of the per-region chunk loop: read the current chunk,
prepend the trailing overlap of the previous chunk, scan; `Sum.inl k`
when a key was found (early return), `Sum.inr trailing'` to continue with
the next chunk (`trailing' = none` after a failed or empty read). -/
def regionStep (os : OsPrims) (verify : List Nat → Bool)
    (base offset currentChunkSize : Nat) (trailing : Option (List Nat)) :
    List Nat ⊕ Option (List Nat) :=
  match os.readMem (base + offset) currentChunkSize with
  | none => Sum.inr none
  | some chunk =>
    if chunk.length = 0 then Sum.inr none
    else
      let dataToScan :=
        match trailing with
        | some tr => if tr.length ≠ 0 then tr ++ chunk else chunk
        | none => chunk
      match scanChunk verify dataToScan with
      | some k => Sum.inl k
      | none => Sum.inr (some (dataToScan.drop (dataToScan.length - overlap)))

/-- The per-region chunk loop (`while (offset < regionSize) …`): read up
to 4 MB at a time (`currentChunkSize = min chunkSize remaining`), carry
the 65-byte trailing overlap, and stop at the first verified key. -/
def scanRegionFrom (os : OsPrims) (verify : List Nat → Bool)
    (base size offset : Nat) (trailing : Option (List Nat)) :
    Option (List Nat) :=
  if h : offset < size then
    match regionStep os verify base offset (min chunkSize (size - offset))
        trailing with
    | Sum.inl k => some k
    | Sum.inr tr =>
      scanRegionFrom os verify base size
        (offset + min chunkSize (size - offset)) tr
  else none
termination_by size - offset
decreasing_by
  have hc : chunkSize = 4194304 := rfl
  omega

/-- The region loop of `getAesKeyFromMemory`: skip regions larger than
100 MB, scan the rest in order, stop at the first verified key. -/
def scanRegions (os : OsPrims) (verify : List Nat → Bool) :
    List (Nat × Nat) → Option (List Nat)
  | [] => none
  | (base, size) :: rest =>
    if 100 * 1024 * 1024 < size then scanRegions os verify rest
    else
      match scanRegionFrom os verify base size 0 none with
      | some k => some k
      | none => scanRegions os verify rest

/-- `getAesKeyFromMemory(pid, ciphertext)` from the memory-key scanner:
`none` when `kernel32` is unavailable, when `OpenProcess` fails, or when
no candidate in any region verifies. -/
def getAesKeyFromMemory (os : OsPrims)
    (aes : List Nat → List Nat → Option (List Nat)) (pid : Nat)
    (ciphertext : List Nat) : Option (List Nat) :=
  if ¬ os.kernel32Ok then none
  else
    match os.openProcess pid with
    | none => none
    | some _ => scanRegions os (verifyKey aes ciphertext) os.regions

/-- Bump the count of a `(lastByte2, lastByte1)` pair, preserving first
insertion order (the `Map` of `getXorKey`). -/
def bumpPair (acc : List ((Nat × Nat) × Nat)) (p : Nat × Nat) :
    List ((Nat × Nat) × Nat) :=
  if acc.any (fun e => e.1 == p) then
    acc.map (fun e => if e.1 == p then (e.1, e.2 + 1) else e)
  else acc ++ [(p, 1)]

/-- The last-two-bytes tally of `getXorKey` over the template files
(files of fewer than 2 bytes are skipped). -/
def pairCounts (templateFiles : List (List Nat)) :
    List ((Nat × Nat) × Nat) :=
  templateFiles.foldl (fun acc bytes =>
    if bytes.length < 2 then acc
    else bumpPair acc
      (bytes.getD (bytes.length - 2) 0, bytes.getD (bytes.length - 1) 0)) []

/-- The strict-majority pick of `getXorKey` (`count > mostCount`, first
maximum wins, iterating in insertion order). -/
def maxPair (counts : List ((Nat × Nat) × Nat)) : Option (Nat × Nat) :=
  (counts.foldl (fun best e =>
    match best with
    | none => if 0 < e.2 then some e else none
    | some b => if b.2 < e.2 then some e else some b) none).map (fun e => e.1)

/-- `getXorKey(templateFiles)`: majority vote over the last two bytes,
validated by `xorKey == lastByte2 XOR 0xFF` and
`xorKey == lastByte1 XOR 0xD9`. -/
def getXorKey (templateFiles : List (List Nat)) : Option Nat :=
  match maxPair (pairCounts templateFiles) with
  | none => none
  | some (x, y) =>
    if x ^^^ 0xFF = y ^^^ 0xD9 then some (x ^^^ 0xFF) else none

/-- `getCiphertextFromTemplate(templateFiles)`: the bytes `[0x0f:0x1f]`
of the first template carrying the V2 signature `07 08 56 32 08 07`. -/
def getCiphertextFromTemplate (templateFiles : List (List Nat)) :
    Option (List Nat) :=
  firstSome (fun bytes =>
    if bytes.length < 0x1f then none
    else if bytes.getD 0 0 = 0x07 ∧ bytes.getD 1 0 = 0x08 ∧
        bytes.getD 2 0 = 0x56 ∧ bytes.getD 3 0 = 0x32 ∧
        bytes.getD 4 0 = 0x08 ∧ bytes.getD 5 0 = 0x07 then
      some (bslice bytes 0x0f 0x1f)
    else none) templateFiles

/-- The `{ success, xorKey?, aesKey?, error? }` result of
`getImageKeys`. -/
structure ImageKeysResult where
  success : Bool
  xorKey : Option Nat
  aesKey : Option (List Nat)
  error : Option String
deriving DecidableEq

/-- The aggregated not-found error text of `getImageKeys`. -/
def notFoundError : String :=
  "无法从内存中获取 AES 密钥。\n\n请尝试：\n1. 确保微信已登录\n2. 打开朋友圈查看几张图片\n3. 重新获取密钥"

/-- `getImageKeys(userDir, wechatPid)` from the memory-key scanner, with
the template-file contents passed in (the filesystem walk and
date-ordering of `findTemplateDatFiles` are not modelled).  The 3-attempt
retry loop collapses: the embedded scan is deterministic, so all retries
return the same value as the first attempt. -/
def getImageKeys (os : OsPrims)
    (aes : List Nat → List Nat → Option (List Nat))
    (templateFiles : List (List Nat)) (pid : Nat) : ImageKeysResult :=
  if templateFiles.length = 0 then
    ⟨false, none, none, some "未找到模板文件，可能该微信账号没有图片缓存"⟩
  else
    match getXorKey templateFiles with
    | none => ⟨false, none, none, some "无法获取 XOR 密钥"⟩
    | some xorKey =>
      match getCiphertextFromTemplate templateFiles with
      | none => ⟨true, some xorKey, none, none⟩
      | some ciphertext =>
        match getAesKeyFromMemory os aes pid ciphertext with
        | some aesKey => ⟨true, some xorKey, some (aesKey.take 16), none⟩
        | none => ⟨false, none, none, some notFoundError⟩

/-- The ASCII search returns the earliest verified candidate of the right
shape. -/
theorem asciiScanFrom_finds (verify : List Nat → Bool) (data : List Nat)
    (i : Nat) (hi : i < data.length - 34)
    (hcand : asciiCandidateAt data i = true)
    (hver : verify (bslice data (i + 1) (i + 33)) = true)
    (hfirst : ∀ j, j < i →
      (asciiCandidateAt data j && verify (bslice data (j + 1) (j + 33))) =
        false) :
    asciiScanFrom verify data 0 = some (bslice data (i + 1) (i + 33)) := by
  suffices h : ∀ k s, i - s ≤ k → s ≤ i →
      asciiScanFrom verify data s = some (bslice data (i + 1) (i + 33)) by
    exact h i 0 (by omega) (by omega)
  intro k
  induction k with
  | zero =>
    intro s h0 hsi
    have hs : s = i := by omega
    subst hs
    rw [asciiScanFrom, dif_pos hi, hcand, hver]
    simp
  | succ k ih =>
    intro s h0 hsi
    by_cases hsi2 : s = i
    · subst hsi2
      rw [asciiScanFrom, dif_pos hi, hcand, hver]
      simp
    · have hslt : s < i := by omega
      rw [asciiScanFrom, dif_pos (show s < data.length - 34 by omega),
        hfirst s hslt]
      simp only [Bool.false_eq_true, if_false]
      exact ih (s + 1) (by omega) (by omega)

/-- C4: on a memory image consisting of one region read in a single
chunk, if position `i` holds the first candidate of shape non-alnum
· 32 alnum · non-alnum whose first 16 bytes decrypt the ciphertext
sample to `FF D8 FF`, the scan returns exactly that candidate (the scan
stops there), and `getImageKeys` reports its first 16 bytes as the AES
key. -/
theorem C4_scanner_returns_first_verified (os : OsPrims)
    (aes : List Nat → List Nat → Option (List Nat)) (pid hdl : Nat)
    (templateFiles : List (List Nat)) (x : Nat)
    (ciphertext data : List Nat) (base i : Nat)
    (hk32 : os.kernel32Ok = true)
    (hopen : os.openProcess pid = some hdl)
    (hreg : os.regions = [(base, data.length)])
    (hsize : data.length ≤ chunkSize)
    (hread : os.readMem base data.length = some data)
    (hi : i < data.length - 34)
    (hcand : asciiCandidateAt data i = true)
    (hver : verifyKey aes ciphertext (bslice data (i + 1) (i + 33)) = true)
    (hfirst : ∀ j, j < i →
      (asciiCandidateAt data j &&
        verifyKey aes ciphertext (bslice data (j + 1) (j + 33))) = false)
    (htf : templateFiles.length ≠ 0)
    (hxor : getXorKey templateFiles = some x)
    (hct : getCiphertextFromTemplate templateFiles = some ciphertext) :
    getAesKeyFromMemory os aes pid ciphertext =
      some (bslice data (i + 1) (i + 33)) ∧
    getImageKeys os aes templateFiles pid =
      ⟨true, some x, some ((bslice data (i + 1) (i + 33)).take 16), none⟩ := by
  have hchunkVal : chunkSize = 4194304 := rfl
  have hchunk : scanChunk (verifyKey aes ciphertext) data =
      some (bslice data (i + 1) (i + 33)) := by
    unfold scanChunk
    rw [asciiScanFrom_finds (verifyKey aes ciphertext) data i hi hcand hver
      hfirst]
  have hmin : min chunkSize (data.length - 0) = data.length := by omega
  have hstep : regionStep os (verifyKey aes ciphertext) base 0
      (min chunkSize (data.length - 0)) none =
      Sum.inl (bslice data (i + 1) (i + 33)) := by
    unfold regionStep
    rw [hmin, Nat.add_zero, hread]
    simp only
    rw [if_neg (show ¬ data.length = 0 by omega)]
    simp only [hchunk]
  have hregion : scanRegionFrom os (verifyKey aes ciphertext) base
      data.length 0 none = some (bslice data (i + 1) (i + 33)) := by
    rw [scanRegionFrom, dif_pos (show 0 < data.length by omega), hstep]
  have hkey : getAesKeyFromMemory os aes pid ciphertext =
      some (bslice data (i + 1) (i + 33)) := by
    unfold getAesKeyFromMemory
    rw [if_neg (by simp [hk32]), hopen, hreg]
    unfold scanRegions
    rw [if_neg (by omega), hregion]
  refine ⟨hkey, ?_⟩
  unfold getImageKeys
  rw [if_neg htf]
  simp only [hxor, hct, hkey]

/-- A 35-byte memory image: a zero byte, 32 alphanumeric bytes (`A`),
then two zero bytes. -/
def data35 : List Nat := (0 :: List.replicate 32 65) ++ [0, 0]

/-- An AES-128-ECB primitive whose every decryption starts with the JPEG
start-of-image marker. -/
def aesJpeg : List Nat → List Nat → Option (List Nat) :=
  fun _ _ => some [0xFF, 0xD8, 0xFF]

/-- A 33-byte V2-signature template file whose bytes `[15:31]` are the
ciphertext sample and whose last two bytes are `FF D9` (so the XOR key
is 0). -/
def tFile : List Nat :=
  [0x07, 0x08, 0x56, 0x32, 0x08, 0x07] ++ List.replicate 9 0 ++
    List.replicate 16 3 ++ [0xFF, 0xD9]

/-- OS primitives exposing one 35-byte readable region. -/
def osGood : OsPrims := ⟨true, fun _ => some 1, [(0, 35)], fun _ _ => some data35⟩

/-- C4 witness: the synthetic image of `data35` yields the candidate at
position 0; its first 16 bytes are the reported AES key. -/
theorem C4_scanner_returns_first_verified_witness :
    asciiCandidateAt data35 0 = true ∧
    verifyKey aesJpeg (List.replicate 16 3) (bslice data35 1 33) = true ∧
    getAesKeyFromMemory osGood aesJpeg 42 (List.replicate 16 3) =
      some (bslice data35 1 33) ∧
    getImageKeys osGood aesJpeg [tFile] 42 =
      ⟨true, some 0, some ((bslice data35 1 33).take 16), none⟩ := by
  have h := C4_scanner_returns_first_verified osGood aesJpeg 42 1 [tFile] 0
    (List.replicate 16 3) data35 0 0 rfl rfl (by decide) (by decide)
    (by decide) (by decide) (by decide) (by decide)
    (fun j hj => absurd hj (Nat.not_lt_zero j)) (by decide) (by decide)
    (by decide)
  exact ⟨by decide, by decide, h.1, h.2⟩

/-- C9 (amended): when `OpenProcess` fails, `getAesKeyFromMemory` returns
`null` — the same value as a scan that found nothing — and `getImageKeys`
reports the ordinary aggregated not-found error, not a distinct
process-access error. -/
theorem C9_open_failure_reported_as_not_found (os : OsPrims)
    (aes : List Nat → List Nat → Option (List Nat)) (pid : Nat)
    (ciphertext : List Nat) (hopen : os.openProcess pid = none) :
    getAesKeyFromMemory os aes pid ciphertext = none ∧
    (∀ templateFiles x, templateFiles.length ≠ 0 →
      getXorKey templateFiles = some x →
      getCiphertextFromTemplate templateFiles = some ciphertext →
      getImageKeys os aes templateFiles pid =
        ⟨false, none, none, some notFoundError⟩) := by
  have h1 : getAesKeyFromMemory os aes pid ciphertext = none := by
    unfold getAesKeyFromMemory
    by_cases hk : os.kernel32Ok
    · simp [hk, hopen]
    · simp [hk]
  refine ⟨h1, ?_⟩
  intro tf x htf hxor hct
  unfold getImageKeys
  rw [if_neg htf]
  simp only [hxor, hct, h1]

/-- OS primitives where `OpenProcess` is denied but everything else (the
region list, the memory reads, a verifying candidate) would succeed. -/
def osDenied : OsPrims := ⟨true, fun _ => none, [(0, 35)], fun _ _ => some data35⟩

/-- OS primitives where the process opens but the scan sees no regions. -/
def osEmpty : OsPrims := ⟨true, fun _ => some 1, [], fun _ _ => none⟩

/-- C9 counterexample: with `OpenProcess` denied, `getImageKeys` returns
the ordinary aggregated not-found result — byte-for-byte the same value
as when the process opens and the scan simply finds nothing — instead of
a distinct process-access error. -/
theorem C9_counterexample_not_distinct :
    osDenied.openProcess 42 = none ∧
    getImageKeys osDenied aesJpeg [tFile] 42 =
      ⟨false, none, none, some notFoundError⟩ ∧
    getImageKeys osDenied aesJpeg [tFile] 42 =
      getImageKeys osEmpty aesJpeg [tFile] 42 :=
  ⟨rfl, by decide, by decide⟩

/-- C9 amended-claim witness: the amended statement applied at the
denied-open primitives. -/
theorem C9_open_failure_reported_as_not_found_witness :
    getAesKeyFromMemory osDenied aesJpeg 42 (List.replicate 16 3) = none ∧
    getImageKeys osDenied aesJpeg [tFile] 42 =
      ⟨false, none, none, some notFoundError⟩ :=
  ⟨(C9_open_failure_reported_as_not_found osDenied aesJpeg 42
      (List.replicate 16 3) rfl).1,
   (C9_open_failure_reported_as_not_found osDenied aesJpeg 42
      (List.replicate 16 3) rfl).2 [tFile] 0 (by decide) (by decide)
      (by decide)⟩

end Miyu.MemScan

namespace Miyu.Keystream

/-- 2^64, the modulus of the 64-bit word arithmetic. -/
def M64 : Nat := 18446744073709551616

/-- 64-bit addition. -/
def add64 (x y : Nat) : Nat := (x + y) % M64

/-- 64-bit subtraction. -/
def sub64 (x y : Nat) : Nat := (x + M64 - y % M64) % M64

/-- 64-bit left shift. -/
def shl64 (x n : Nat) : Nat := (x <<< n) % M64

/-- 64-bit right shift. -/
def shr64 (x n : Nat) : Nat := x >>> n

/-- Bitwise XOR (both operands already < 2^64). -/
def xor64 (x y : Nat) : Nat := x ^^^ y

/-- 64-bit bitwise complement. -/
def not64 (x : Nat) : Nat := x ^^^ (M64 - 1)

/-- The eight mixing registers of the ISAAC64 initialisation. -/
structure Mix8 where
  a : Nat
  b : Nat
  c : Nat
  d : Nat
  e : Nat
  f : Nat
  g : Nat
  h : Nat

/-- Modelled from the spec: one application of the standard ISAAC64
`mix(a,…,h)` scramble (the `Isaac64` class imported from
`./isaac64` is not among the provided sources; §4.3 specifies "standard
scramble/mix initialization"). -/
def mixPass (v : Mix8) : Mix8 :=
  let a1 := sub64 v.a v.e
  let f1 := xor64 v.f (shr64 v.h 9)
  let h1 := add64 v.h a1
  let b1 := sub64 v.b f1
  let g1 := xor64 v.g (shl64 a1 9)
  let a2 := add64 a1 b1
  let c1 := sub64 v.c g1
  let h2 := xor64 h1 (shr64 b1 23)
  let b2 := add64 b1 c1
  let d1 := sub64 v.d h2
  let a3 := xor64 a2 (shl64 c1 15)
  let c2 := add64 c1 d1
  let e1 := sub64 v.e a3
  let b3 := xor64 b2 (shr64 d1 14)
  let d2 := add64 d1 e1
  let f2 := sub64 f1 b3
  let c3 := xor64 c2 (shl64 e1 20)
  let e2 := add64 e1 f2
  let g2 := sub64 g1 c3
  let d3 := xor64 d2 (shr64 f2 17)
  let f3 := add64 f2 g2
  let h3 := sub64 h2 d3
  let e3 := xor64 e2 (shl64 g2 14)
  let g3 := add64 g2 h3
  ⟨a3, b3, c3, d3, e3, f3, g3, h3⟩

/-- Add the eight words `src[i..i+7]` into the mixing registers. -/
def addBlock (src : List Nat) (i : Nat) (v : Mix8) : Mix8 :=
  ⟨add64 v.a (src.getD i 0), add64 v.b (src.getD (i + 1) 0),
   add64 v.c (src.getD (i + 2) 0), add64 v.d (src.getD (i + 3) 0),
   add64 v.e (src.getD (i + 4) 0), add64 v.f (src.getD (i + 5) 0),
   add64 v.g (src.getD (i + 6) 0), add64 v.h (src.getD (i + 7) 0)⟩

/-- Store the mixing registers into `mm[i..i+7]`. -/
def setBlock (mm : List Nat) (i : Nat) (v : Mix8) : List Nat :=
  (((((((mm.set i v.a).set (i + 1) v.b).set (i + 2) v.c).set (i + 3)
    v.d).set (i + 4) v.e).set (i + 5) v.f).set (i + 6) v.g).set (i + 7) v.h

/-- One seeding-pass block of `randinit(flag=true)`: fold the seed words
in, mix, store. -/
def seedStep (seed : List Nat) (st : List Nat × Mix8) (t : Nat) :
    List Nat × Mix8 :=
  let v := mixPass (addBlock seed (8 * t) st.2)
  (setBlock st.1 (8 * t) v, v)

/-- One second-pass block of `randinit`: fold the state words themselves
in, mix, store. -/
def passStep (st : List Nat × Mix8) (t : Nat) : List Nat × Mix8 :=
  let v := mixPass (addBlock st.1 (8 * t) st.2)
  (setBlock st.1 (8 * t) v, v)

/-- The ISAAC64 internal state: 256 64-bit words and the three chaining
registers. -/
structure Isaac64State where
  mm : List Nat
  aa : Nat
  bb : Nat
  cc : Nat

/-- The golden-ratio constant `0x9e3779b97f4a7c13` of `randinit`. -/
def golden : Nat := 0x9e3779b97f4a7c13

/-- Modelled from the spec: the standard ISAAC64 `randinit(flag=true)`
seeding (absent `Isaac64` class, §4.3 "256-word, 64-bit internal state,
standard scramble/mix initialization"): four scrambles of the golden
ratio, one pass folding the seed in, one pass folding the state into
itself. -/
def randInit (seed : List Nat) : Isaac64State :=
  let v0 : Mix8 := ⟨golden, golden, golden, golden, golden, golden, golden,
    golden⟩
  let v1 := mixPass (mixPass (mixPass (mixPass v0)))
  let p1 := (List.range 32).foldl (seedStep seed) (List.replicate 256 0, v1)
  let p2 := (List.range 32).foldl passStep p1
  ⟨p2.1, 0, 0, 0⟩

/-- `ind(mm, x) = mm[(x >> 3) & (RANDSIZ - 1)]`. -/
def indMM (mm : List Nat) (x : Nat) : Nat := mm.getD ((x >>> 3) % 256) 0

/-- Modelled from the spec: one index of the standard ISAAC64 output
round (`rngstep`), with the `i mod 4` shift schedule 21/5/12/33. -/
def isaacStep (st : List Nat × Nat × Nat × List Nat) (i : Nat) :
    List Nat × Nat × Nat × List Nat :=
  let mm := st.1
  let a := st.2.1
  let b := st.2.2.1
  let r := st.2.2.2
  let x := mm.getD i 0
  let a1 :=
    match i % 4 with
    | 0 => not64 (xor64 a (shl64 a 21))
    | 1 => xor64 a (shr64 a 5)
    | 2 => xor64 a (shl64 a 12)
    | _ => xor64 a (shr64 a 33)
  let a2 := add64 (mm.getD ((i + 128) % 256) 0) a1
  let y := add64 (add64 (indMM mm x) a2) b
  let mm1 := mm.set i y
  let b1 := add64 (indMM mm1 (y >>> 8)) x
  (mm1, a2, b1, r ++ [b1])

/-- Modelled from the spec: one full ISAAC64 round, producing the next
state and the 256 result words. -/
def isaac64Round (s : Isaac64State) : Isaac64State × List Nat :=
  let cc1 := add64 s.cc 1
  let b0 := add64 s.bb cc1
  let out := (List.range 256).foldl isaacStep (s.mm, s.aa, b0, [])
  (⟨out.1, out.2.1, out.2.2.1, cc1⟩, out.2.2.2)

/-- A 64-bit word serialized as 8 big-endian bytes. -/
def be8 (w : Nat) : List Nat :=
  [w / 72057594037927936 % 256, w / 281474976710656 % 256,
   w / 1099511627776 % 256, w / 4294967296 % 256, w / 16777216 % 256,
   w / 65536 % 256, w / 256 % 256, w % 256]

/-- `n` consecutive 2048-byte output blocks, serialized big-endian. -/
def isaacBlocks (s : Isaac64State) : Nat → List Nat
  | 0 => []
  | n + 1 =>
    let sr := isaac64Round s
    (sr.2.map be8).flatten ++ isaacBlocks sr.1 n

/-- Modelled from the spec: the seed derived from the decimal-digit key
string — its numeric value (mod 2^64) in the first seed word (the exact
seed layout of the absent `Isaac64` class is not specified; §4.3 only
says "seeded deterministically from the key string"). -/
def seedOfKey (key : String) : List Nat :=
  (List.replicate 256 0).set 0
    ((key.data.foldl (fun acc c => 10 * acc + (c.toNat - 48)) 0) % M64)

/-- Modelled from the spec: `generateKeystreamBE(length)` — output
generated in 2048-byte blocks by the standard ISAAC64 round (the first
block being the round `randinit` itself triggers), serialized big-endian,
truncated to `length` bytes. -/
def generateKeystreamBE (key : String) (length : Nat) : List Nat :=
  (isaacBlocks (randInit (seedOfKey key)) ((length + 2047) / 2048)).take
    length

/-- The composed keystream of the image branch of `fetchAndDecryptImage`
(snsService.ts): align the requested length up to an 8-byte boundary,
generate that many keystream bytes, reverse the whole buffer, take the
requested prefix. -/
def getKeystream (key : String) (length : Nat) : List Nat :=
  let alignSize := ((length + 7) / 8) * 8
  let alignedKeystream := generateKeystreamBE key alignSize
  alignedKeystream.reverse.take length

set_option maxHeartbeats 4000000 in
/-- C1 counterexample: the composed keystream is not prefix-stable across
8-byte-aligned block boundaries — for key "123", the first 8 bytes of
`keystream("123", 16)` differ from `keystream("123", 8)`: the whole
16-byte aligned buffer is reversed before the prefix is taken, so the
first bytes of the longer stream come from the second generated word. -/
theorem C1_counterexample_not_pref_stable :
    (getKeystream "123" 16).take 8 ≠ getKeystream "123" 8 := by decide

/-- C1 (amended): the keystream is prefix-stable exactly within one
8-byte-aligned generation size: for `M ≤ N` with `⌈M/8⌉ = ⌈N/8⌉`, the
first `M` bytes of `keystream(K, N)` equal `keystream(K, M)` (the same
reversed aligned buffer is truncated); across different aligned sizes the
property fails. -/
theorem C1_keystream_block_stable (key : String) (M N : Nat) (hMN : M ≤ N)
    (halign : (M + 7) / 8 = (N + 7) / 8) :
    (getKeystream key N).take M = getKeystream key M := by
  unfold getKeystream
  rw [halign, List.take_take, Nat.min_eq_left hMN]

/-- C1 amended-claim witness: lengths 3 and 5 share the aligned size 8. -/
theorem C1_keystream_block_stable_witness :
    3 ≤ 5 ∧ (3 + 7) / 8 = (5 + 7) / 8 ∧
    (getKeystream "9" 5).take 3 = getKeystream "9" 3 :=
  ⟨by decide, by decide,
   C1_keystream_block_stable "9" 3 5 (by decide) (by decide)⟩

end Miyu.Keystream
